import Mathlib

/-!
# SMS expense extraction: a shallow embedding

This file embeds the expense-extraction logic of `src/App.jsx`
(`parseExpenseFromSms` and the scan orchestration in `scanSmsForExpenses`)
and proves properties about it.

The heart of the source is one JavaScript regular expression

  `/(?:RS|INR|₹)\s?(\d+(:?\.\d{1,2})?)/i`

applied with `body.match` (leftmost match, no global flag) and
`body.replace(amountRegex, '')` (removes the same leftmost match).
Note the inner group is written `(:?...)` — a *capturing* group beginning
with an optional literal colon — not the non-capturing `(?:...)`.
The embedding reproduces this faithfully.

Strings are modelled as `List Char`.  All characters appearing in the
pattern and in the claims are in the Basic Multilingual Plane, where
JavaScript's UTF-16 code-unit indexing (used by `slice`) coincides with
code-point indexing, so `List Char` positions agree with JS positions.

Numeric amounts are modelled exactly in `ℚ`; `jsFiniteBound` records the
threshold at which `parseFloat`'s result ceases to be a finite IEEE-754
double (values `≥ 2^1024 − 2^970` round to `Infinity`).
-/

/-- JavaScript's `\d`: exactly the ASCII digits. -/
def isDigitJS (c : Char) : Bool := '0' ≤ c && c ≤ '9'

/-- The characters matched by JavaScript's `\s`
(WhiteSpace ∪ LineTerminator, ES2015+). -/
def jsWhitespace : List Char :=
  [' ', '\t', '\n', '\r',
   Char.ofNat 0x0B, Char.ofNat 0x0C, Char.ofNat 0xA0, Char.ofNat 0x1680,
   Char.ofNat 0x2000, Char.ofNat 0x2001, Char.ofNat 0x2002, Char.ofNat 0x2003,
   Char.ofNat 0x2004, Char.ofNat 0x2005, Char.ofNat 0x2006, Char.ofNat 0x2007,
   Char.ofNat 0x2008, Char.ofNat 0x2009, Char.ofNat 0x200A,
   Char.ofNat 0x2028, Char.ofNat 0x2029, Char.ofNat 0x202F,
   Char.ofNat 0x205F, Char.ofNat 0x3000, Char.ofNat 0xFEFF]

/-- JavaScript's `\s`. -/
def isSpaceJS (c : Char) : Bool := decide (c ∈ jsWhitespace)

/-- Case-insensitive (flag `i`) comparison for the letters of the currency
markers; JS canonicalization on ASCII letters is plain case folding. -/
def isR (c : Char) : Bool := c = 'R' || c = 'r'

def isS (c : Char) : Bool := c = 'S' || c = 's'

def isI (c : Char) : Bool := c = 'I' || c = 'i'

def isN (c : Char) : Bool := c = 'N' || c = 'n'

/-- The alternation `(?:RS|INR|₹)` with flag `i`, tried at the head of the
suffix `s`: returns the number of characters the marker consumes, or `none`.
The three alternatives start with distinct letters, so alternation order
cannot change the outcome. -/
def markerLenAt : List Char → Option Nat
  | c1 :: rest =>
    if isR c1 then
      match rest with
      | c2 :: _ => if isS c2 then some 2 else none
      | [] => none
    else if isI c1 then
      match rest with
      | c2 :: c3 :: _ => if isN c2 && isR c3 then some 3 else none
      | _ => none
    else if c1 = '₹' then some 1 else none
  | [] => none

/-- Greedy `\d+` / `\d*`: split a list into its maximal digit prefix and
the remainder. -/
def takeDigits : List Char → List Char × List Char
  | [] => ([], [])
  | c :: rest =>
    if isDigitJS c then (c :: (takeDigits rest).1, (takeDigits rest).2)
    else ([], c :: rest)

/-- Greedy `\d{1,2}` at the head of the list: the one or two digits it
consumes (two preferred), or `[]` if the head is not a digit. -/
def twoDigits : List Char → List Char
  | d1 :: rest =>
    if isDigitJS d1 then
      match rest with
      | d2 :: _ => if isDigitJS d2 then [d1, d2] else [d1]
      | [] => [d1]
    else []
  | [] => []

/-- The sub-pattern `\.\d{1,2}`: matches a literal dot followed by one or
two digits, returning the consumed characters, or `[]` on failure.
This is also the "clean" fractional rule `(?:\.\d{1,2})?` the spec asks
reimplementations to use (§9): the optional group contributes `dotFrac`
when it matches and nothing otherwise. -/
def dotFrac : List Char → List Char
  | c :: rest =>
    if c = '.' then
      match twoDigits rest with
      | [] => []
      | ds => '.' :: ds
    else []
  | [] => []

/-- The fractional group as actually written in the source,
`(:?\.\d{1,2})?`: an optional literal colon, then a dot, then one or two
digits, the whole group optional.  If the colon path fails the group
backtracks to the empty colon, which then still requires a dot; hence a
leading colon succeeds only when `:.d` or `:.dd` follows. -/
def fracPart : List Char → List Char
  | c :: rest =>
    if c = ':' then
      match dotFrac rest with
      | [] => []
      | f => ':' :: f
    else dotFrac (c :: rest)
  | [] => []

/-- The sub-pattern `\s?\d+` at the head of the list; on success returns
(number of whitespace characters consumed (0 or 1), the digits, the rest).
`\s?` is greedy but whitespace and digits are disjoint, so the match is
as computed here. -/
def numStart : List Char → Option (Nat × List Char × List Char)
  | [] => none
  | c :: rest =>
    if isDigitJS c then some (0, takeDigits (c :: rest))
    else if isSpaceJS c then
      match rest with
      | d :: _ => if isDigitJS d then some (1, takeDigits rest) else none
      | [] => none
    else none

/-- Attempt the whole pattern at the head of the suffix `s`, with the
fractional group given by `frac` (`fracPart` for the source pattern,
`dotFrac` for the spec's clean pattern).  On success returns
(total match length, the capture of group 1 `(\d+⟨frac⟩)`). -/
def matchHereWith (frac : List Char → List Char) (s : List Char) :
    Option (Nat × List Char) :=
  match markerLenAt s with
  | none => none
  | some ml =>
    match numStart (s.drop ml) with
    | none => none
    | some (w, ds, rest) =>
      some (ml + w + ds.length + (frac rest).length, ds ++ frac rest)

/-- Leftmost match, as performed by `body.match(regex)` without the global
flag: try each position left to right; on success return
(match index, match length, capture of group 1). -/
def findFirstWith (frac : List Char → List Char) :
    List Char → Option (Nat × Nat × List Char)
  | [] => none
  | c :: rest =>
    match matchHereWith frac (c :: rest) with
    | some (l, cap) => some (0, l, cap)
    | none =>
      match findFirstWith frac rest with
      | some (i, l, cap) => some (i + 1, l, cap)
      | none => none

/-- Value of a digit string, most significant first. -/
def digitsToNat (ds : List Char) : Nat :=
  ds.foldl (fun a c => 10 * a + (c.toNat - 48)) 0

/-- JavaScript `parseFloat` on the capture of group 1, modelled exactly
in `ℚ`.  Every capture has the shape `digits`, `digits.d`, `digits.dd`,
`digits:.d` or `digits:.dd`; `parseFloat` reads the leading digits, then a
fractional part only if a literal dot follows immediately (a colon stops
the parse, so `"10:.99"` parses as `10`). -/
def parseFloatTok (cap : List Char) : ℚ :=
  match takeDigits cap with
  | (ds, r) =>
    match r with
    | c :: fs =>
      if c = '.' then
        mkRat (digitsToNat ds * 10 ^ fs.length + digitsToNat fs) (10 ^ fs.length)
      else mkRat (digitsToNat ds) 1
    | [] => mkRat (digitsToNat ds) 1

/-- The expense record produced by the extractor.  `date` keeps the raw
timestamp: the source formats it with `toLocaleDateString()`, which the
spec (§4.1 step 5) declares environment-dependent and not a contract. -/
structure Expense where
  amount : ℚ
  description : List Char
  date : Int
deriving DecidableEq

/-- The fixed three-character ellipsis appended by
`.slice(0, 50) + '...'`. -/
def ellipsis : List Char := ['.', '.', '.']

/-- `parseExpenseFromSms` from `src/App.jsx`, parametrised by the
fractional group.  On a match at index `i` of length `l` with capture
`cap`: `amount = parseFloat(cap)`;
`description = body.replace(regex, '').slice(0, 50) + '...'`, where
`replace` removes the same leftmost match the `match` call found. -/
def parseExpenseFromSmsWith (frac : List Char → List Char)
    (body : List Char) (date : Int) : Option Expense :=
  match findFirstWith frac body with
  | some (i, l, cap) =>
    some { amount := parseFloatTok cap
           description := ((body.take i ++ body.drop (i + l)).take 50) ++ ellipsis
           date := date }
  | none => none

/-- The extractor exactly as in the source, with the `(:?\.\d{1,2})?`
fractional group. -/
def parseExpenseFromSms (body : List Char) (date : Int) : Option Expense :=
  parseExpenseFromSmsWith fracPart body date

/-- Modelled from the spec (§9, design note on the regex typo): the same
extractor but with the clean fractional rule `(?:\.\d{1,2})?` — "optional
`.` followed by 1–2 digits" — in place of the source's `(:?\.\d{1,2})?`.
Used to compare the two for the refinement claim. -/
def parseExpenseFromSmsClean (body : List Char) (date : Int) : Option Expense :=
  parseExpenseFromSmsWith dotFrac body date

/-- One raw SMS as handed to the extractor: body text and epoch-millis
timestamp. -/
structure RawMessage where
  body : List Char
  date : Int

/-- The scan orchestration of `scanSmsForExpenses` (src/App.jsx lines
85–95): `parsedList.map(sms => parseExpenseFromSms(sms.body, sms.date))
.filter(expense => expense !== null)` — each message mapped independently,
nulls dropped, order preserved.  The surviving elements are the (non-null)
`Expense` values, which `filterMap` returns directly. -/
def scanSmsForExpenses (msgs : List RawMessage) : List Expense :=
  msgs.filterMap (fun sms => parseExpenseFromSms sms.body sms.date)

/-- The smallest non-negative rational that `parseFloat` turns into a
non-finite IEEE-754 double: decimal values `≥ 2^1024 − 2^970` round to
`+Infinity` (round-to-nearest, ties-to-even).  Written in the factored
form `2^970 * (2^54 − 1) = 2^1024 − 2^970` (see `jsFiniteBound_eq`) so
that comparisons against it are kernel-computable. -/
def jsFiniteBound : ℚ := mkRat ((2 ^ 970) * (2 ^ 54 - 1) : Nat) 1

/-- Spec-side restatement of "the body contains a currency marker at
position `j`, followed by an optional whitespace character and at least
one digit" — the condition under which the pattern matches at `j`,
written without reference to the matcher. -/
def currencyAmountAt (s : List Char) (j : Nat) : Bool :=
  match markerLenAt (s.drop j) with
  | none => false
  | some ml =>
    match (s.drop j).drop ml with
    | [] => false
    | c :: rest =>
      isDigitJS c ||
        (isSpaceJS c && (match rest with | [] => false | d :: _ => isDigitJS d))

/-- The list starts with at least two whitespace characters. -/
def twoSpacesAfter : List Char → Bool
  | c1 :: c2 :: _ => isSpaceJS c1 && isSpaceJS c2
  | _ => false

/-- A body whose numeric token has 310 digits: its value `10^309` exceeds
the largest finite IEEE-754 double, so JavaScript's `parseFloat` returns
`Infinity` on the captured token. -/
def overflowBody : List Char := 'R' :: 'S' :: ' ' :: '1' :: List.replicate 309 '0'

/-- A body with two occurrences of the pattern where the second lies
beyond the 50-character truncation window of the description. -/
def laterMatchBody : List Char :=
  "RS 1 ".toList ++ List.replicate 50 'a' ++ " RS 2".toList

/-- The list does not begin with a digit (the state of the remainder after
a maximal digit run, and of every fractional group). -/
def headNotDigit : List Char → Prop
  | [] => True
  | c :: _ => isDigitJS c = false


/-- The factored numerator of `jsFiniteBound` indeed equals
`2^1024 - 2^970`. -/
theorem jsFiniteBound_eq : jsFiniteBound = 2 ^ 1024 - 2 ^ 970 := by
  have h54 : (1 : Nat) ≤ 2 ^ 54 := Nat.one_le_two_pow
  unfold jsFiniteBound
  rw [Rat.mkRat_eq_div, Nat.cast_mul, Nat.cast_sub h54]
  push_cast
  ring

theorem takeDigits_spec (l : List Char) :
    (takeDigits l).1.all isDigitJS = true ∧ headNotDigit (takeDigits l).2 := by
  induction l with
  | nil => exact ⟨rfl, trivial⟩
  | cons c rest ih =>
    by_cases hc : isDigitJS c = true
    · have h1 : takeDigits (c :: rest) = (c :: (takeDigits rest).1, (takeDigits rest).2) := by
        simp [takeDigits, hc]
      rw [h1]
      refine ⟨?_, ih.2⟩
      simpa [List.all_cons, hc] using ih.1
    · have h1 : takeDigits (c :: rest) = ([], c :: rest) := by
        simp [takeDigits, hc]
      rw [h1]
      exact ⟨rfl, by simpa using hc⟩

theorem takeDigits_append (ds front : List Char)
    (hds : ds.all isDigitJS = true) (hf : headNotDigit front) :
    takeDigits (ds ++ front) = (ds, front) := by
  induction ds with
  | nil =>
    cases front with
    | nil => rfl
    | cons c r =>
      have hc : isDigitJS c = false := hf
      simp [takeDigits, hc]
  | cons d ds ih =>
    rw [List.all_cons] at hds
    have hd : isDigitJS d = true := by
      cases h : isDigitJS d with
      | true => rfl
      | false => rw [h] at hds; simp at hds
    have hrest : ds.all isDigitJS = true := by
      rw [hd] at hds; simpa using hds
    simp [takeDigits, hd, ih hrest]

theorem isSpaceJS_not_digit (c : Char) (h : isSpaceJS c = true) : isDigitJS c = false := by
  have hall : jsWhitespace.all (fun x => !isDigitJS x) = true := by decide
  have hmem : c ∈ jsWhitespace := by simpa [isSpaceJS] using h
  have := List.all_eq_true.mp hall c hmem
  simpa using this

theorem parseFloatTok_int (ds front : List Char) (hds : ds.all isDigitJS = true)
    (hf : headNotDigit front) (hnd : ∀ fs, front ≠ '.' :: fs) :
    parseFloatTok (ds ++ front) = mkRat (digitsToNat ds) 1 := by
  unfold parseFloatTok
  rw [takeDigits_append ds front hds hf]
  cases front with
  | nil => rfl
  | cons c fs =>
    have hc : ¬(c = '.') := fun hcc => hnd fs (by rw [hcc])
    simp [hc]

theorem parseFloatTok_digits (ds : List Char) (hds : ds.all isDigitJS = true) :
    parseFloatTok ds = mkRat (digitsToNat ds) 1 := by
  have h := parseFloatTok_int ds [] hds trivial (fun fs hh => by simp at hh)
  simpa using h

theorem parseFloatTok_fracPart (ds rest : List Char) (hds : ds.all isDigitJS = true) :
    parseFloatTok (ds ++ fracPart rest) = parseFloatTok (ds ++ dotFrac rest) := by
  cases rest with
  | nil => rfl
  | cons c r =>
    by_cases hc : c = ':'
    · subst hc
      have hdot : dotFrac (':' :: r) = [] := by
        have : ¬((':' : Char) = '.') := by decide
        simp [dotFrac, this]
      rw [hdot, List.append_nil]
      cases hdf : dotFrac r with
      | nil =>
        have hfp : fracPart (':' :: r) = [] := by simp [fracPart, hdf]
        rw [hfp, List.append_nil]
      | cons f0 ftail =>
        have hfp : fracPart (':' :: r) = ':' :: f0 :: ftail := by simp [fracPart, hdf]
        rw [hfp]
        rw [parseFloatTok_int ds (':' :: f0 :: ftail) hds (by exact (by decide : isDigitJS ':' = false))
          (fun fs hh => by injection hh with h1 _; exact absurd h1 (by decide))]
        rw [parseFloatTok_digits ds hds]
    · have hfp : fracPart (c :: r) = dotFrac (c :: r) := by simp [fracPart, hc]
      rw [hfp]

theorem numStart_shape (l : List Char) (w : Nat) (ds rest : List Char)
    (h : numStart l = some (w, ds, rest)) :
    ∃ l2, takeDigits l2 = (ds, rest) := by
  cases l with
  | nil => exact absurd h (by simp [numStart])
  | cons c r =>
    by_cases hc : isDigitJS c = true
    · have h2 : (some (0, takeDigits (c :: r)) : Option (Nat × List Char × List Char)) =
          some (w, ds, rest) := by
        rw [← h]; simp [numStart, hc]
      injection h2 with h3
      exact ⟨c :: r, congrArg Prod.snd h3⟩
    · by_cases hs : isSpaceJS c = true
      · cases r with
        | nil => exact absurd h (by simp [numStart, hc, hs])
        | cons d r2 =>
          by_cases hd : isDigitJS d = true
          · have h2 : (some (1, takeDigits (d :: r2)) : Option (Nat × List Char × List Char)) =
                some (w, ds, rest) := by
              rw [← h]; simp [numStart, hc, hs, hd]
            injection h2 with h3
            exact ⟨d :: r2, congrArg Prod.snd h3⟩
          · exact absurd h (by simp [numStart, hc, hs, hd])
      · exact absurd h (by simp [numStart, hc, hs])

theorem numStart_digits (l : List Char) (w : Nat) (ds rest : List Char)
    (h : numStart l = some (w, ds, rest)) :
    ds.all isDigitJS = true ∧ headNotDigit rest := by
  obtain ⟨l2, hl⟩ := numStart_shape l w ds rest h
  have hspec := takeDigits_spec l2
  rw [hl] at hspec
  exact hspec

theorem matchHereWith_rel (s : List Char) :
    (matchHereWith fracPart s = none ∧ matchHereWith dotFrac s = none) ∨
    (∃ l cap l2 cap2,
      matchHereWith fracPart s = some (l, cap) ∧
      matchHereWith dotFrac s = some (l2, cap2) ∧
      parseFloatTok cap = parseFloatTok cap2) := by
  cases hm : markerLenAt s with
  | none => exact Or.inl ⟨by simp [matchHereWith, hm], by simp [matchHereWith, hm]⟩
  | some ml =>
    cases hn : numStart (s.drop ml) with
    | none => exact Or.inl ⟨by simp [matchHereWith, hm, hn], by simp [matchHereWith, hm, hn]⟩
    | some p =>
      obtain ⟨w, ds, rest⟩ := p
      refine Or.inr ⟨ml + w + ds.length + (fracPart rest).length, ds ++ fracPart rest,
        ml + w + ds.length + (dotFrac rest).length, ds ++ dotFrac rest,
        by simp [matchHereWith, hm, hn], by simp [matchHereWith, hm, hn], ?_⟩
      exact parseFloatTok_fracPart ds rest (numStart_digits _ _ _ _ hn).1

theorem findFirstWith_rel (s : List Char) :
    (findFirstWith fracPart s = none ∧ findFirstWith dotFrac s = none) ∨
    (∃ i l cap l2 cap2,
      findFirstWith fracPart s = some (i, l, cap) ∧
      findFirstWith dotFrac s = some (i, l2, cap2) ∧
      parseFloatTok cap = parseFloatTok cap2) := by
  induction s with
  | nil => exact Or.inl ⟨rfl, rfl⟩
  | cons c rest ih =>
    rcases matchHereWith_rel (c :: rest) with ⟨h1, h2⟩ | ⟨l, cap, l2, cap2, h1, h2, heq⟩
    · rcases ih with ⟨g1, g2⟩ | ⟨i, l, cap, l2, cap2, g1, g2, geq⟩
      · exact Or.inl ⟨by simp [findFirstWith, h1, g1], by simp [findFirstWith, h2, g2]⟩
      · exact Or.inr ⟨i + 1, l, cap, l2, cap2,
          by simp [findFirstWith, h1, g1], by simp [findFirstWith, h2, g2], geq⟩
    · exact Or.inr ⟨0, l, cap, l2, cap2,
        by simp [findFirstWith, h1], by simp [findFirstWith, h2], heq⟩

theorem findFirstWith_leftmost (frac : List Char → List Char) (s : List Char)
    (i l : Nat) (cap : List Char)
    (h : findFirstWith frac s = some (i, l, cap)) :
    matchHereWith frac (s.drop i) = some (l, cap) ∧
      ∀ j, j < i → matchHereWith frac (s.drop j) = none := by
  induction s generalizing i with
  | nil => exact absurd h (by simp [findFirstWith])
  | cons c rest ih =>
    cases hm : matchHereWith frac (c :: rest) with
    | some p =>
      obtain ⟨l0, cap0⟩ := p
      have hh : (some (0, l0, cap0) : Option (Nat × Nat × List Char)) = some (i, l, cap) := by
        rw [← h]; simp [findFirstWith, hm]
      injection hh with hh1
      obtain ⟨hi, hl, hcap⟩ : 0 = i ∧ l0 = l ∧ cap0 = cap := by
        simpa [Prod.ext_iff] using hh1
      subst hi; subst hl; subst hcap
      refine ⟨by simpa using hm, ?_⟩
      intro j hj
      exact absurd hj (Nat.not_lt_zero j)
    | none =>
      cases hf : findFirstWith frac rest with
      | none =>
        exact absurd h (by simp [findFirstWith, hm, hf])
      | some q =>
        obtain ⟨qi, ql, qcap⟩ := q
        have hh : (some (qi + 1, ql, qcap) : Option (Nat × Nat × List Char)) = some (i, l, cap) := by
          rw [← h]; simp [findFirstWith, hm, hf]
        injection hh with hh1
        obtain ⟨hi, hl, hcap⟩ : qi + 1 = i ∧ ql = l ∧ qcap = cap := by
          simpa [Prod.ext_iff] using hh1
        subst hi; subst hl; subst hcap
        obtain ⟨ha, hb⟩ := ih qi hf
        refine ⟨by simpa [List.drop_succ_cons] using ha, ?_⟩
        intro j hj
        cases j with
        | zero => simpa using hm
        | succ k =>
          rw [List.drop_succ_cons]
          exact hb k (by omega)

theorem findFirstWith_eq_none (frac : List Char → List Char) (s : List Char)
    (h : ∀ j, matchHereWith frac (s.drop j) = none) :
    findFirstWith frac s = none := by
  induction s with
  | nil => rfl
  | cons c rest ih =>
    have h0 : matchHereWith frac (c :: rest) = none := by simpa using h 0
    have h1 : findFirstWith frac rest = none := by
      refine ih (fun j => ?_)
      have := h (j + 1)
      rwa [List.drop_succ_cons] at this
    simp [findFirstWith, h0, h1]

theorem matchHereWith_none_iff (frac : List Char → List Char) (s : List Char) (j : Nat) :
    matchHereWith frac (s.drop j) = none ↔ currencyAmountAt s j = false := by
  cases hm : markerLenAt (s.drop j) with
  | none => simp [matchHereWith, currencyAmountAt, hm]
  | some ml =>
    cases hl : (s.drop j).drop ml with
    | nil => simp [matchHereWith, currencyAmountAt, hm, hl, numStart]
    | cons c rest =>
      by_cases hc : isDigitJS c = true
      · simp [matchHereWith, currencyAmountAt, hm, hl, numStart, hc]
      · by_cases hs : isSpaceJS c = true
        · cases rest with
          | nil => simp [matchHereWith, currencyAmountAt, hm, hl, numStart, hc, hs]
          | cons d r2 =>
            by_cases hd : isDigitJS d = true
            · simp [matchHereWith, currencyAmountAt, hm, hl, numStart, hc, hs, hd]
            · simp [matchHereWith, currencyAmountAt, hm, hl, numStart, hc, hs, hd]
        · simp [matchHereWith, currencyAmountAt, hm, hl, numStart, hc, hs]

theorem matchHereWith_nil (frac : List Char → List Char) :
    matchHereWith frac [] = none := rfl

theorem allRange_matchHere_none (frac : List Char → List Char) (s : List Char)
    (h : (List.range (s.length + 1)).all (fun j => !currencyAmountAt s j) = true) :
    ∀ j, matchHereWith frac (s.drop j) = none := by
  intro j
  by_cases hj : j ≤ s.length
  · have hmem : j ∈ List.range (s.length + 1) := List.mem_range.mpr (by omega)
    have hb := List.all_eq_true.mp h j hmem
    have hfalse : currencyAmountAt s j = false := by simpa using hb
    exact (matchHereWith_none_iff frac s j).mpr hfalse
  · rw [List.drop_eq_nil_of_le (by omega)]
    exact matchHereWith_nil frac

set_option maxRecDepth 100000 in
/-- C1: the extractor does not validate finiteness.  For the body
`"RS 1"` followed by 309 zeros the pattern matches and the captured token
parses to `10^309`, at or above the IEEE-754 double overflow threshold
`jsFiniteBound` (JavaScript's `parseFloat` yields `Infinity` there), yet
`parseExpenseFromSms` returns an `Expense` instead of the `null` the claim
requires. -/
theorem C1_nonfinite_amount_returned :
    ∃ e, parseExpenseFromSms overflowBody 0 = some e ∧ jsFiniteBound ≤ e.amount := by
  refine ⟨⟨mkRat ((10 : Nat) ^ 309 : Nat) 1, ellipsis, 0⟩, by decide, by decide⟩

/-- C2: whenever the extractor returns an expense, the description is the
body with the leftmost pattern match removed, truncated to at most 50
characters, with the fixed three-character ellipsis appended regardless of
truncation; hence it always ends in the ellipsis and has length ≤ 53. -/
theorem C2_description_shape (body : List Char) (t : Int) (e : Expense)
    (h : parseExpenseFromSms body t = some e) :
    (∃ i l cap, findFirstWith fracPart body = some (i, l, cap) ∧
      e.description = ((body.take i ++ body.drop (i + l)).take 50) ++ ellipsis) ∧
    ellipsis.IsSuffix e.description ∧ e.description.length ≤ 53 := by
  unfold parseExpenseFromSms parseExpenseFromSmsWith at h
  cases hf : findFirstWith fracPart body with
  | none => rw [hf] at h; exact absurd h (by simp)
  | some p =>
    obtain ⟨i, l, cap⟩ := p
    rw [hf] at h
    injection h with h1
    subst h1
    refine ⟨⟨i, l, cap, rfl, rfl⟩, ⟨(body.take i ++ body.drop (i + l)).take 50, rfl⟩, ?_⟩
    simp only [List.length_append, List.length_take, ellipsis, List.length_cons,
      List.length_nil]
    omega

/-- Witness for C2 at a concrete transactional SMS body. -/
theorem C2_description_shape_witness :
    (parseExpenseFromSms "RS 123.45 spent at store".toList 0 =
      some ⟨mkRat 12345 100, " spent at store...".toList, 0⟩) ∧
    ((∃ i l cap,
        findFirstWith fracPart "RS 123.45 spent at store".toList = some (i, l, cap) ∧
        (Expense.mk (mkRat 12345 100) " spent at store...".toList 0).description =
          ((("RS 123.45 spent at store".toList).take i ++
              ("RS 123.45 spent at store".toList).drop (i + l)).take 50) ++ ellipsis) ∧
      ellipsis.IsSuffix (Expense.mk (mkRat 12345 100) " spent at store...".toList 0).description ∧
      (Expense.mk (mkRat 12345 100) " spent at store...".toList 0).description.length ≤ 53) :=
  ⟨by decide, C2_description_shape _ 0 _ (by decide)⟩

/-- C3: a body with no occurrence of a currency marker followed by an
optional whitespace character and a digit produces no expense, for every
timestamp. -/
theorem C3_no_currency_marker_null (body : List Char) (t : Int)
    (h : (List.range (body.length + 1)).all
      (fun j => !currencyAmountAt body j) = true) :
    parseExpenseFromSms body t = none := by
  have hall := allRange_matchHere_none fracPart body h
  have hf := findFirstWith_eq_none fracPart body hall
  simp [parseExpenseFromSms, parseExpenseFromSmsWith, hf]

/-- Witness for C3: an OTP-style body containing no currency marker. -/
theorem C3_no_currency_marker_null_witness :
    ((List.range (("Your OTP code is 482910".toList).length + 1)).all
      (fun j => !currencyAmountAt "Your OTP code is 482910".toList j) = true) ∧
    parseExpenseFromSms "Your OTP code is 482910".toList 0 = none :=
  ⟨by decide, C3_no_currency_marker_null _ 0 (by decide)⟩

/-- C4 counterexample: the claim asserts later matches "remain in the
description".  For `laterMatchBody` the extractor does return an expense
derived from the first match (so at most one expense is produced), and a
second pattern occurrence exists at index 56, but the 50-character
truncation removes it: the returned description contains no occurrence of
the currency-amount pattern at any position. -/
theorem C4_later_match_not_in_description :
    ∃ e, parseExpenseFromSms laterMatchBody 0 = some e ∧
      currencyAmountAt laterMatchBody 56 = true ∧
      (List.range (e.description.length + 1)).all
        (fun j => !currencyAmountAt e.description j) = true := by
  refine ⟨⟨mkRat 1 1, (' ' :: List.replicate 49 'a') ++ ellipsis, 0⟩,
    by decide, by decide, by decide⟩

/-- C4 (amended): the extractor produces at most one expense per body, and
when it produces one it is derived from the leftmost pattern match alone:
no earlier position matches, the amount is parsed from that match's
capture, and only that occurrence is removed from the body (later matched
text stays in the pre-truncation remainder, though the truncation to 50
characters may drop it from the final description). -/
theorem C4_first_match_wins (body : List Char) (t : Int) (e : Expense)
    (h : parseExpenseFromSms body t = some e) :
    ∃ i l cap, matchHereWith fracPart (body.drop i) = some (l, cap) ∧
      (∀ j, j < i → matchHereWith fracPart (body.drop j) = none) ∧
      e = ⟨parseFloatTok cap, ((body.take i ++ body.drop (i + l)).take 50) ++ ellipsis, t⟩ := by
  unfold parseExpenseFromSms parseExpenseFromSmsWith at h
  cases hf : findFirstWith fracPart body with
  | none => rw [hf] at h; exact absurd h (by simp)
  | some p =>
    obtain ⟨i, l, cap⟩ := p
    rw [hf] at h
    injection h with h1
    obtain ⟨hm, hlt⟩ := findFirstWith_leftmost fracPart body i l cap hf
    exact ⟨i, l, cap, hm, hlt, h1.symm⟩

/-- Witness for C4 at a body with two pattern occurrences. -/
theorem C4_first_match_wins_witness :
    (parseExpenseFromSms "RS 5 and INR 7".toList 0 =
      some ⟨mkRat 5 1, " and INR 7...".toList, 0⟩) ∧
    (∃ i l cap,
      matchHereWith fracPart (("RS 5 and INR 7".toList).drop i) = some (l, cap) ∧
      (∀ j, j < i → matchHereWith fracPart (("RS 5 and INR 7".toList).drop j) = none) ∧
      (⟨mkRat 5 1, " and INR 7...".toList, 0⟩ : Expense) =
        ⟨parseFloatTok cap,
          ((("RS 5 and INR 7".toList).take i ++
            ("RS 5 and INR 7".toList).drop (i + l)).take 50) ++ ellipsis, 0⟩) :=
  ⟨by decide, C4_first_match_wins _ 0 _ (by decide)⟩

/-- C5: the returned amount is exactly the parse of the captured numeric
token; concretely `"RS 123.45 spent at store"` yields `123.45` and
`"₹500 debited"` yields exactly `500` with no fractional artifact. -/
theorem C5_amount_is_parsed_token (body : List Char) (t : Int) (e : Expense)
    (h : parseExpenseFromSms body t = some e) :
    (∃ i l cap, findFirstWith fracPart body = some (i, l, cap) ∧
      e.amount = parseFloatTok cap) ∧
    parseExpenseFromSms "RS 123.45 spent at store".toList 0 =
      some ⟨mkRat 12345 100, " spent at store...".toList, 0⟩ ∧
    parseExpenseFromSms "₹500 debited".toList 0 =
      some ⟨mkRat 500 1, " debited...".toList, 0⟩ := by
  refine ⟨?_, by decide, by decide⟩
  unfold parseExpenseFromSms parseExpenseFromSmsWith at h
  cases hf : findFirstWith fracPart body with
  | none => rw [hf] at h; exact absurd h (by simp)
  | some p =>
    obtain ⟨i, l, cap⟩ := p
    rw [hf] at h
    injection h with h1
    exact ⟨i, l, cap, rfl, by rw [← h1]⟩

/-- Witness for C5 at the integer-token body. -/
theorem C5_amount_is_parsed_token_witness :
    (parseExpenseFromSms "₹500 debited".toList 0 =
      some ⟨mkRat 500 1, " debited...".toList, 0⟩) ∧
    ((∃ i l cap, findFirstWith fracPart "₹500 debited".toList = some (i, l, cap) ∧
        (Expense.mk (mkRat 500 1) " debited...".toList 0).amount = parseFloatTok cap) ∧
      parseExpenseFromSms "RS 123.45 spent at store".toList 0 =
        some ⟨mkRat 12345 100, " spent at store...".toList, 0⟩ ∧
      parseExpenseFromSms "₹500 debited".toList 0 =
        some ⟨mkRat 500 1, " debited...".toList, 0⟩) :=
  ⟨by decide, C5_amount_is_parsed_token _ 0 _ (by decide)⟩

/-- C6: the pattern caps the captured fraction at two digits: whenever a
dot is followed by three (or more) digits only the first two are consumed
by the fractional group, and on `"INR 10.999"` the capture is `"10.99"`,
the amount is `10.99`, and the uncaptured trailing `9` stays in the body
remainder used for the description. -/
theorem C6_fraction_capped_at_two (d1 d2 d3 : Char) (r : List Char)
    (h1 : isDigitJS d1 = true) (h2 : isDigitJS d2 = true)
    (_h3 : isDigitJS d3 = true) :
    fracPart ('.' :: d1 :: d2 :: d3 :: r) = ['.', d1, d2] ∧
    parseExpenseFromSms "INR 10.999".toList 0 =
      some ⟨mkRat 1099 100, "9...".toList, 0⟩ := by
  constructor
  · have hdot : ¬(('.' : Char) = ':') := by decide
    simp [fracPart, hdot, dotFrac, twoDigits, h1, h2]
  · decide

/-- Witness for C6 with three literal fractional digits. -/
theorem C6_fraction_capped_at_two_witness :
    (isDigitJS '9' = true ∧ isDigitJS '9' = true ∧ isDigitJS '9' = true) ∧
    (fracPart ('.' :: '9' :: '9' :: '9' :: []) = ['.', '9', '9'] ∧
      parseExpenseFromSms "INR 10.999".toList 0 =
        some ⟨mkRat 1099 100, "9...".toList, 0⟩) :=
  ⟨⟨by decide, by decide, by decide⟩,
    C6_fraction_capped_at_two '9' '9' '9' [] (by decide) (by decide) (by decide)⟩

/-- C7 counterexample: the source pattern (with the `(:?\.\d{1,2})?`
sub-expression) and the clean pattern (`(?:\.\d{1,2})?`) are not
equivalent: on the body `"RS 5:.25 x"` the source extractor consumes
`":.25"` into the match and capture while the clean one stops at the
digits, so the two descriptions differ. -/
theorem C7_not_equivalent :
    parseExpenseFromSms "RS 5:.25 x".toList 0 ≠
      parseExpenseFromSmsClean "RS 5:.25 x".toList 0 := by decide

/-- C7 (amended): the two extractors agree on match versus no-match, on
the returned amount, and on the returned date, for every body and
timestamp.  They are not fully equivalent — the returned descriptions can
differ, as the counterexample body shows — so any divergence between the
two extractors is confined to the description field. -/
theorem C7_match_and_amount_agree (body : List Char) (t : Int) :
    (parseExpenseFromSms body t).isSome = (parseExpenseFromSmsClean body t).isSome ∧
    (parseExpenseFromSms body t).map Expense.amount =
      (parseExpenseFromSmsClean body t).map Expense.amount ∧
    (parseExpenseFromSms body t).map Expense.date =
      (parseExpenseFromSmsClean body t).map Expense.date := by
  rcases findFirstWith_rel body with ⟨h1, h2⟩ | ⟨i, l, cap, l2, cap2, h1, h2, heq⟩
  · simp [parseExpenseFromSms, parseExpenseFromSmsClean, parseExpenseFromSmsWith, h1, h2]
  · simp [parseExpenseFromSms, parseExpenseFromSmsClean, parseExpenseFromSmsWith, h1, h2, heq]

/-- C8: the scan applies the extractor to each message independently and
keeps exactly the non-null results in input order (it distributes over
concatenation and acts pointwise on singletons); on the concrete
three-message batch it returns the two expenses in order, with the OTP
message excluded. -/
theorem C8_scan_keeps_non_null_in_order (xs ys : List RawMessage) (m : RawMessage) :
    scanSmsForExpenses (xs ++ ys) = scanSmsForExpenses xs ++ scanSmsForExpenses ys ∧
    scanSmsForExpenses [m] = (parseExpenseFromSms m.body m.date).toList ∧
    scanSmsForExpenses
        [⟨"Rs 250 paid to Amazon".toList, 0⟩,
         ⟨"Your OTP code is 482910".toList, 1⟩,
         ⟨"INR 1500.00 credited".toList, 2⟩] =
      [⟨mkRat 250 1, " paid to Amazon...".toList, 0⟩,
       ⟨mkRat 1500 1, " credited...".toList, 2⟩] := by
  refine ⟨by simp [scanSmsForExpenses], ?_, by decide⟩
  cases h : parseExpenseFromSms m.body m.date <;> simp [scanSmsForExpenses, h]

/-- C9: the pattern has no word-boundary anchoring: in
`"offers 50 off today"` the trailing `rs` of "offers" acts as a currency
marker and the extractor returns an expense with amount `50` parsed from
the following digits. -/
theorem C9_no_word_boundary :
    parseExpenseFromSms "offers 50 off today".toList 0 =
      some ⟨mkRat 50 1, "offe off today...".toList, 0⟩ := by decide

/-- C10: at most one whitespace character may separate the marker from the
digits: if every marker occurrence in the body is followed by at least two
whitespace characters, the pattern never matches and the extractor
returns null. -/
theorem C10_two_spaces_no_match (body : List Char) (t : Int)
    (h : (List.range (body.length + 1)).all
      (fun j => match markerLenAt (body.drop j) with
                | some ml => twoSpacesAfter ((body.drop j).drop ml)
                | none => true) = true) :
    parseExpenseFromSms body t = none := by
  have hall : ∀ j, matchHereWith fracPart (body.drop j) = none := by
    intro j
    by_cases hj : j ≤ body.length
    · have hmem : j ∈ List.range (body.length + 1) := List.mem_range.mpr (by omega)
      have hb := List.all_eq_true.mp h j hmem
      cases hm : markerLenAt (body.drop j) with
      | none => simp [matchHereWith, hm]
      | some ml =>
        have hb2 : twoSpacesAfter ((body.drop j).drop ml) = true := by
          simpa [hm] using hb
        cases hL : (body.drop j).drop ml with
        | nil => rw [hL] at hb2; exact absurd hb2 (by simp [twoSpacesAfter])
        | cons c1 rest1 =>
          cases rest1 with
          | nil => rw [hL] at hb2; exact absurd hb2 (by simp [twoSpacesAfter])
          | cons c2 rest2 =>
            rw [hL] at hb2
            have hsp : isSpaceJS c1 = true ∧ isSpaceJS c2 = true := by
              simpa [twoSpacesAfter] using hb2
            have hd1 : isDigitJS c1 = false := isSpaceJS_not_digit c1 hsp.1
            have hd2 : isDigitJS c2 = false := isSpaceJS_not_digit c2 hsp.2
            simp [matchHereWith, hm, hL, numStart, hd1, hsp.1, hd2]
    · rw [List.drop_eq_nil_of_le (by omega)]
      exact matchHereWith_nil fracPart
  have hf := findFirstWith_eq_none fracPart body hall
  simp [parseExpenseFromSms, parseExpenseFromSmsWith, hf]

/-- Witness for C10: two spaces between the marker and the digits. -/
theorem C10_two_spaces_no_match_witness :
    ((List.range (("RS  10".toList).length + 1)).all
      (fun j => match markerLenAt (("RS  10".toList).drop j) with
                | some ml => twoSpacesAfter ((("RS  10".toList).drop j).drop ml)
                | none => true) = true) ∧
    parseExpenseFromSms "RS  10".toList 0 = none :=
  ⟨by decide, C10_two_spaces_no_match _ 0 (by decide)⟩
